import Mathlib

/-!
Shallow embedding of the brand-protection analyst agent
(`src/agent/utils.py`, `src/agent/agent.py`, `src/agent/models.py`,
`src/main.py`) and verification of the frozen claims about it.

Python dictionaries with string keys are modelled as association lists
`List (String × α)` with first-match lookup and in-place update, matching
Python dict semantics (unique keys, insertion order preserved).
Dynamically-typed JSON-ish values are modelled by the inductive `JValue`.
Strings are Lean `String`s; Python's `str.lower`/`str.upper` are modelled
character-wise by `Char.toLower`/`Char.toUpper` (ASCII, as in the inputs
this program handles), and Python's `in` on strings is substring
containment (`List.IsInfix` on the character lists).
-/

/-- Dynamically-typed value, as stored in the Python dicts of this program
(JSON scalars, arrays and objects). Numbers are modelled exactly as
rationals. -/
inductive JValue where
  | null : JValue
  | bool (b : Bool) : JValue
  | num (q : ℚ) : JValue
  | str (s : String) : JValue
  | arr (items : List JValue) : JValue
  | obj (fields : List (String × JValue)) : JValue

/-- A Python dict with string keys and dynamically typed values. -/
abbrev PyDict := List (String × JValue)

/-- First-match association-list lookup: Python `d[k]` / `d.get(k)` on a
dict represented with unique keys. -/
def pyLookup {α : Type} (m : List (String × α)) (k : String) : Option α :=
  match m with
  | [] => none
  | p :: rest => if p.1 = k then some p.2 else pyLookup rest k

/-- Python `d.get(k, default)`. -/
def pyGet {α : Type} (m : List (String × α)) (k : String) (default : α) : α :=
  (pyLookup m k).getD default

/-- Python `d[k] = v`: replace the binding in place if the key is present,
otherwise append it (insertion order semantics of Python dicts). -/
def pyUpdate {α : Type} (m : List (String × α)) (k : String) (v : α) :
    List (String × α) :=
  if m.any (fun p => p.1 = k) then
    m.map (fun p => if p.1 = k then (k, v) else p)
  else
    m ++ [(k, v)]

/-- Python `str.lower()` (character-wise ASCII lowering). -/
def pyLower (s : String) : String := ⟨s.data.map Char.toLower⟩

/-- Python `str.upper()` (character-wise ASCII raising). -/
def pyUpper (s : String) : String := ⟨s.data.map Char.toUpper⟩

/-- Python `sub in s` for strings: substring containment. -/
def strContains (sub s : String) : Bool := decide (sub.data <:+: s.data)

/-- Python truthiness of a `JValue` (`None`, `False`, `0`, `""`, `[]`, `{}`
are falsy). -/
def jTruthy : JValue → Bool
  | .null => false
  | .bool b => b
  | .num q => q ≠ 0
  | .str s => s ≠ ""
  | .arr items => !items.isEmpty
  | .obj fields => !fields.isEmpty

/-! ### Data model (`src/agent/models.py`) -/

/-- `ThreatAnalysis` dataclass. The value-typed fields hold whatever the
verdict dict supplied (the dataclass annotations are not enforced at run
time), so they are `JValue`s; `domain` and `timestamp` are always strings
in this program. -/
structure ThreatAnalysis where
  domain : String
  is_threat : JValue
  confidence : JValue
  reason : JValue
  risk_level : JValue
  timestamp : String

/-- `AnalysisMetadata` dataclass. -/
structure AnalysisMetadata where
  brand : String
  keyword : String
  total_domains : ℕ
  threat_count : ℕ
  filtered_count : ℕ
  false_positive_reduction : String
  timestamp : String
  batch_size : ℤ

/-- `BrandAnalysisResult` dataclass. -/
structure BrandAnalysisResult where
  metadata : AnalysisMetadata
  threats : List ThreatAnalysis
  filtered : List ThreatAnalysis

/-- Brand configuration dict produced by
`BrandProtectionConfig._create_dynamic_brand_config` (keys `name`,
`industry`, `description`, `context_notes`). -/
structure BrandConfig where
  name : String
  industry : String
  description : String
  context_notes : List String

/-! ### `DomainLoader.filter_full_word_matches` (`utils.py` 133-142) -/

/-- `DomainLoader.filter_full_word_matches`: keep the domains that contain
`keyword.lower()` as a substring (the loop appends in input order, which
is `List.filter`). -/
def filter_full_word_matches (domains : List String) (keyword : String) :
    List String :=
  domains.filter (fun domain => strContains (pyLower keyword) domain)

/-- Case-insensitive substring containment (the spec's reading: both sides
lowered). -/
def ciContains (sub s : String) : Bool := strContains (pyLower sub) (pyLower s)

example :
    filter_full_word_matches ["tui-corp.com", "other.com", "mytuiglobal.net"] "tui"
      = ["tui-corp.com", "mytuiglobal.net"] := by decide

/-! ### `ResultsProcessor.process_results` (`utils.py` 14-57) -/

/-- The conservative fallback verdict dict used by `process_results` for a
domain missing from `llm_results` (`utils.py` 21-26). -/
def unavailableFallback : PyDict :=
  [("relevant", .bool true), ("confidence", .num (1/2)),
   ("reason", .str "LLM evaluation unavailable"), ("risk_level", .str "medium")]

/-- The body of the `for domain in domains` loop of `process_results`
(`utils.py` 20-35): fetch the verdict (or the fallback) and build the
`ThreatAnalysis`, with per-key `.get` defaults. -/
def classify (timestamp : String) (llm_results : List (String × PyDict))
    (domain : String) : ThreatAnalysis :=
  let result := (pyLookup llm_results domain).getD unavailableFallback
  { domain := domain
    is_threat := pyGet result "relevant" (.bool true)
    confidence := pyGet result "confidence" (.num (1/2))
    reason := pyGet result "reason" (.str "")
    risk_level := pyGet result "risk_level" (.str "medium")
    timestamp := timestamp }

/-- Round `num / den` to the nearest integer, ties to even: the rounding
performed by Python's `f"{x:.1f}"` formatting (and by `round(x, 1)`) on
the scaled value, modelled exactly on rationals. -/
def rheNat (num den : ℕ) : ℕ :=
  let q := num / den
  let r := num % den
  if 2 * r < den then q
  else if den < 2 * r then q + 1
  else if q % 2 = 0 then q else q + 1

/-- Model of `f"{filtered_count / total * 100:.1f}%"` (`utils.py` 48):
the percentage is rounded to tenths (ties to even) and rendered with one
decimal place. -/
def fpFormat (filtered_count total : ℕ) : String :=
  let tenths := rheNat (filtered_count * 1000) total
  toString (tenths / 10) ++ "." ++ toString (tenths % 10) ++ "%"

/-- `ResultsProcessor.process_results` (`utils.py` 14-57): classify every
domain, partition by the truthiness of `is_threat`, and assemble the
metadata. -/
def process_results (domains : List String)
    (llm_results : List (String × PyDict)) (brand_config : BrandConfig)
    (batch_size : ℤ) (timestamp : String) : BrandAnalysisResult :=
  let analyses := domains.map (classify timestamp llm_results)
  let parts := analyses.partition (fun a => jTruthy a.is_threat)
  { metadata :=
      { brand := brand_config.name
        keyword := pyLower brand_config.name
        total_domains := domains.length
        threat_count := parts.1.length
        filtered_count := parts.2.length
        false_positive_reduction :=
          if domains.isEmpty then "0.0%"
          else fpFormat parts.2.length domains.length
        timestamp := timestamp
        batch_size := batch_size }
    threats := parts.1
    filtered := parts.2 }

/-! ### `BrandProtectionConfig` (`utils.py` 145-168) -/

/-- Python `x or default` for an optional string argument (`None` and `""`
are falsy). -/
def pyOr (x : Option String) (default : String) : String :=
  match x with
  | some s => if s = "" then default else s
  | none => default

/-- Python `f"{x}"` for an optional string (`None` renders as `"None"`). -/
def pyFmtOpt : Option String → String
  | some s => s
  | none => "None"

/-- `BrandProtectionConfig._create_dynamic_brand_config` (`utils.py`
152-168). Note the source defaults `description` (line 155) from the
`company_name` argument before `company_name` itself is defaulted
(line 156). -/
def create_dynamic_brand_config (brand_name : String)
    (company_name industry description : Option String) : BrandConfig :=
  let industry' := pyOr industry "Business"
  let description' := pyOr description
    (pyFmtOpt company_name ++
      " is a company that users want to protect from domain impersonation and cybersquatting.")
  let company_name' := pyOr company_name brand_name
  { name := pyUpper company_name'
    industry := industry'
    description := description'
    context_notes :=
      ["Focus on domains that could confuse customers of " ++ company_name',
       "Consider domains that impersonate " ++ brand_name ++ " services",
       "Filter out domains where \"" ++ pyLower brand_name ++ "\" appears coincidentally",
       "Evaluate based on business context and customer confusion potential"] }

/-- `BrandProtectionConfig.get_brand_config` (`utils.py` 146-150):
`None` unless a truthy brand name is given. -/
def get_brand_config (brand_name company_name industry description :
    Option String) : Option BrandConfig :=
  match brand_name with
  | some s => if s = "" then none
              else some (create_dynamic_brand_config s company_name industry description)
  | none => none

/-! ### `GeminiAnalyzer._parse_response` (`agent.py` 187-236) -/

/-- Index of the last occurrence of `c`, or `-1` when absent: Python's
`str.rfind`. -/
def rfind (c : Char) : List Char → ℤ
  | [] => -1
  | x :: xs =>
    let r := rfind c xs
    if 0 ≤ r then r + 1 else if x = c then 0 else -1

/-- Model of `re.search(r'\x7b.*\x7d', response, re.DOTALL)` followed by
`.group(0)`: the leftmost-greedy match runs from the first `{` to the
last `}` of the whole text, and exists exactly when some `{` precedes
some `}`. -/
def extractJson (response : List Char) : Option (List Char) :=
  match response.findIdx? (fun ch => ch = '{') with
  | none => none
  | some i =>
    let j := rfind '}' response
    if (i : ℤ) < j then some ((response.drop i).take (j.toNat + 1 - i))
    else none

/-- The default verdict given to every batch domain before the `threats`
array is applied (`agent.py` 202-209). -/
def noThreatVerdict (domain : String) : PyDict :=
  [("domain", .str domain), ("relevant", .bool false),
   ("confidence", .num (95/100)), ("reason", .str "No threat detected"),
   ("risk_level", .str "low")]

/-- The verdict overwriting a batch domain named by an entry of the
`threats` array (`agent.py` 215-221), given the entry's fields and its
(string) `risk_level` value. -/
def threatVerdict (domain : String) (fields : PyDict) (risk : String) : PyDict :=
  [("domain", .str domain), ("relevant", .bool true),
   ("confidence", pyGet fields "confidence" (.num (4/5))),
   ("reason", pyGet fields "reason" (.str "Potential threat")),
   ("risk_level", .str (pyLower risk))]

/-- The `for threat in threats` loop (`agent.py` 212-221). `none` models a
raised exception (a non-dict element, or a non-string `risk_level` whose
`.lower()` raises), which the outer handler turns into an empty dict. A
missing or non-string `domain`, or one not in the batch, is skipped. -/
def applyThreats (batch : List String) :
    List JValue → List (String × PyDict) → Option (List (String × PyDict))
  | [], results => some results
  | item :: rest, results =>
    match item with
    | .obj fields =>
      match pyLookup fields "domain" with
      | some (.str d) =>
        if d ∈ batch then
          match pyGet fields "risk_level" (.str "medium") with
          | .str risk => applyThreats batch rest (pyUpdate results d (threatVerdict d fields risk))
          | _ => none
        else applyThreats batch rest results
      | _ => applyThreats batch rest results
    | _ => none

/-- Lines 197-223 of `agent.py`, applied to the decoded JSON value:
default every batch domain, then apply the `threats` array. `none` models
an exception reaching the outer handler: `data.get` on a non-dict,
iterating a non-iterable `threats` value, or a failure inside the loop.
Iterating an empty dict or empty string performs no iterations. -/
def buildVerdicts (data : JValue) (batch : List String) :
    Option (List (String × PyDict)) :=
  match data with
  | .obj fields =>
    let base := batch.foldl (fun m d => pyUpdate m d (noThreatVerdict d)) []
    match pyGet fields "threats" (.arr []) with
    | .arr items => applyThreats batch items base
    | .obj [] => some base
    | .str "" => some base
    | _ => none
  | _ => none

/-- The domains named (as strings) by the entries of a decoded `threats`
array, in order. -/
def threatNames (items : List JValue) : List String :=
  items.filterMap (fun item =>
    match item with
    | .obj fields =>
      match pyLookup fields "domain" with
      | some (.str d) => some d
      | _ => none
    | _ => none)

/-- Well-formedness of one `threats` entry: it is a JSON object, and if it
names a batch domain then its `risk_level` is a string (or absent), so the
`.lower()` call does not raise. -/
def WfItem (batch : List String) (item : JValue) : Prop :=
  ∃ fields, item = .obj fields ∧
    ∀ d, pyLookup fields "domain" = some (.str d) → d ∈ batch →
      ∃ risk, pyGet fields "risk_level" (.str "medium") = .str risk

/-- `GeminiAnalyzer._parse_response` (`agent.py` 187-236). `decode` stands
for `json.loads` (Python standard library): it yields the decoded value
or `none` for a `JSONDecodeError`. Any failure path returns the empty
dict. -/
def parse_response (decode : List Char → Option JValue) (response : List Char)
    (batch_domains : List String) : List (String × PyDict) :=
  match extractJson response with
  | none => []
  | some s =>
    match decode s with
    | none => []
    | some data => (buildVerdicts data batch_domains).getD []

/-! ### `GeminiAnalyzer.analyze_domains` (`agent.py` 86-185) -/

/-- What one `generate_content` call does, as seen by the retry loop: a
response with text, a response without text (the loop just moves to the
next attempt), or a raised error with a message. -/
inductive AttemptOutcome where
  | ok (response : List Char)
  | okEmpty
  | error (msg : String)

/-- The overload test of `agent.py` 143: `"503" in msg or "overloaded" in
msg.lower() or "unavailable" in msg.lower()`. -/
def isOverloadMsg (msg : String) : Bool :=
  strContains "503" msg || strContains "overloaded" (pyLower msg) ||
    strContains "unavailable" (pyLower msg)

/-- How the retry loop of one batch ended. -/
inductive BatchOutcome where
  | parsed (verdicts : List (String × PyDict))
  | fallbackOverload
  | fallbackError (msg : String)
  | exhausted

/-- Observable behaviour of one batch's retry loop: how it ended, the
backoff sleeps it performed (seconds), and how many generation attempts
it made. -/
structure BatchRun where
  outcome : BatchOutcome
  sleeps : List ℚ
  attempts : ℕ

/-- The `for attempt in range(max_retries)` loop of `agent.py` 110-172 for
one batch, with `remaining` attempts left and `attempt` the current index.
`outcomes n` is what the `n`-th generation attempt does and `jitter n` the
`random.uniform(0, 5)` drawn before the `n`-th retry sleep. The constants
`max_retries = 3` and `base_wait = 15` are supplied by the caller. -/
def runBatchLoop (decode : List Char → Option JValue) (batch : List String)
    (outcomes : ℕ → AttemptOutcome) (jitter : ℕ → ℚ) (max_retries : ℕ) :
    (remaining attempt : ℕ) → BatchRun
  | 0, _ => { outcome := .exhausted, sleeps := [], attempts := 0 }
  | remaining + 1, attempt =>
    match outcomes attempt with
    | .ok response =>
      { outcome := .parsed (parse_response decode response batch),
        sleeps := [], attempts := 1 }
    | .okEmpty =>
      let rest := runBatchLoop decode batch outcomes jitter max_retries remaining (attempt + 1)
      { rest with attempts := rest.attempts + 1 }
    | .error msg =>
      if isOverloadMsg msg then
        if attempt < max_retries - 1 then
          let wait := 15 * 2 ^ attempt + jitter attempt
          let rest := runBatchLoop decode batch outcomes jitter max_retries remaining (attempt + 1)
          { outcome := rest.outcome, sleeps := wait :: rest.sleeps,
            attempts := rest.attempts + 1 }
        else { outcome := .fallbackOverload, sleeps := [], attempts := 1 }
      else { outcome := .fallbackError msg, sleeps := [], attempts := 1 }

/-- One whole batch: the loop starting at attempt `0` with `max_retries`
attempts available. -/
def runBatch (decode : List Char → Option JValue) (batch : List String)
    (outcomes : ℕ → AttemptOutcome) (jitter : ℕ → ℚ) (max_retries : ℕ) :
    BatchRun :=
  runBatchLoop decode batch outcomes jitter max_retries max_retries 0

/-- The overload fallback verdict for one domain (`agent.py` 153-160). -/
def overloadFallback (domain : String) (max_retries : ℕ) : PyDict :=
  [("domain", .str domain), ("relevant", .bool true),
   ("confidence", .num (1/2)),
   ("reason", .str ("API overloaded after " ++ toString max_retries ++ " retries")),
   ("risk_level", .str "medium")]

/-- The non-overload error fallback verdict for one domain
(`agent.py` 164-171). -/
def errorFallback (domain msg : String) : PyDict :=
  [("domain", .str domain), ("relevant", .bool true),
   ("confidence", .num (1/2)), ("reason", .str ("API error: " ++ msg)),
   ("risk_level", .str "medium")]

/-- `for domain in batch: results[domain] = val domain`. -/
def assignAll (batch : List String) (val : String → PyDict)
    (results : List (String × PyDict)) : List (String × PyDict) :=
  batch.foldl (fun m d => pyUpdate m d (val d)) results

/-- Merge one finished batch into the running `results` dict
(`agent.py` 133-134, 152-160, 163-171). -/
def applyBatch (results : List (String × PyDict)) (batch : List String)
    (run : BatchRun) (max_retries : ℕ) : List (String × PyDict) :=
  match run.outcome with
  | .parsed verdicts => verdicts.foldl (fun m p => pyUpdate m p.1 p.2) results
  | .fallbackOverload => assignAll batch (fun d => overloadFallback d max_retries) results
  | .fallbackError msg => assignAll batch (fun d => errorFallback d msg) results
  | .exhausted => results

/-- `domains[i:i+batch_size]` slicing loop: split into chunks of `n`
(`agent.py` 101-102). Returns `[]` for `n = 0` (unreachable: the caller
guarantees a positive batch size). -/
def chunks {α : Type} (n : ℕ) (l : List α) : List (List α) :=
  if _hn : n = 0 then []
  else
    match l with
    | [] => []
    | x :: xs => (x :: xs).take n :: chunks n ((x :: xs).drop n)
termination_by l.length
decreasing_by
  simp only [List.length_drop, List.length_cons]
  omega

/-- The outer `for i in range(0, len(domains), batch_size)` loop
(`agent.py` 101-178): run each batch in order and merge its results.
`oracle b n` is the outcome of attempt `n` of batch index `b`, and
`jitter b n` the corresponding retry jitter. -/
def runBatches (decode : List Char → Option JValue)
    (oracle : ℕ → ℕ → AttemptOutcome) (jitter : ℕ → ℕ → ℚ) :
    ℕ → List (List String) → List (String × PyDict) → List (String × PyDict)
  | _, [], results => results
  | b, batch :: rest, results =>
    runBatches decode oracle jitter (b + 1) rest
      (applyBatch results batch (runBatch decode batch (oracle b) (jitter b) 3) 3)

/-- The batch-size correction of `agent.py` 91-93 (for an `int` argument:
the `isinstance` test only excludes non-`int` values, outside this typed
model). -/
def effective_batch_size (batch_size : ℤ) : ℤ :=
  if batch_size ≤ 0 then 200 else batch_size

/-- `GeminiAnalyzer.analyze_domains` (`agent.py` 86-185): empty dict when
the client is not configured; otherwise correct the batch size, split the
domains into batches and run them. The inter-batch rate-limiting sleeps do
not affect the returned dict and are not tracked here. -/
def analyze_domains (configured : Bool) (decode : List Char → Option JValue)
    (domains : List String) (batch_size : ℤ)
    (oracle : ℕ → ℕ → AttemptOutcome) (jitter : ℕ → ℕ → ℚ) :
    List (String × PyDict) :=
  if !configured then []
  else
    runBatches decode oracle jitter 0
      (chunks (effective_batch_size batch_size).toNat domains) []

/-! ### `ResultsProcessor.save_results` (`utils.py` 59-104) -/

/-- Python `s.startswith(pre)`. -/
def strStarts (pre s : String) : Bool := decide (pre.data <+: s.data)

/-- Worker for `removeAll`, structurally recursive on a fuel bound that
dominates the remaining length (each step consumes at least one
character when the pattern is non-empty). -/
def removeAllAux (pat : List Char) : ℕ → List Char → List Char
  | _, [] => []
  | 0, s => s
  | fuel + 1, x :: xs =>
    if pat.isPrefixOf (x :: xs) then removeAllAux pat fuel ((x :: xs).drop pat.length)
    else x :: removeAllAux pat fuel xs

/-- Python `s.replace(pat, '')` for a non-empty `pat`: remove every
occurrence, scanning left to right. -/
def removeAll (pat : List Char) (s : List Char) : List Char :=
  if pat.isEmpty then s else removeAllAux pat s.length s

/-- `os.path.splitext(p)[0]` on POSIX: cut at the last dot of the
basename, unless every character of the basename before that dot is a
dot. -/
def splitextRoot (p : List Char) : List Char :=
  let sI := rfind '/' p
  let dI := rfind '.' p
  if sI < dI then
    let fS := (sI + 1).toNat
    if ((p.drop fS).take (dI.toNat - fS)).any (fun ch => ch ≠ '.') then
      p.take dI.toNat
    else p
  else p

/-- `os.path.join("data", base)` on POSIX: an absolute `base` discards the
`"data"` component. -/
def pyJoinData (base : String) : String :=
  if strStarts "/" base then base else "data/" ++ base

/-- The variable `output_base_path` of `save_results` (`utils.py` 64-68). -/
def output_base_path (output_path : String) : String :=
  if strStarts "data/" output_path || strStarts "data\\" output_path then
    ⟨splitextRoot output_path.data⟩
  else
    pyJoinData ⟨removeAll ".json".data (removeAll ".csv".data output_path.data)⟩

/-- The fixed CSV columns of `save_results` (`utils.py` 78, 88). -/
def csvFieldnames : List String :=
  ["domain", "is_threat", "confidence", "reason", "risk_level", "timestamp"]

/-- One CSV file written by `save_results`: its path, its header columns
and its rows (one `ThreatAnalysis.to_dict()` per row). -/
structure SavedCsv where
  path : String
  fieldnames : List String
  rows : List ThreatAnalysis

/-- The files `save_results` writes. -/
structure SavedFiles where
  threats_csv : Option SavedCsv
  filtered_csv : Option SavedCsv
  json_path : String
  json_content : BrandAnalysisResult

/-- `ResultsProcessor.save_results` (`utils.py` 59-104), abstracting the
filesystem: which files are written, at which paths, with which
content. -/
def save_results (results : BrandAnalysisResult) (output_path : String) :
    SavedFiles :=
  let base := output_base_path output_path
  { threats_csv :=
      if results.threats.isEmpty then none
      else some ⟨base ++ "_threats.csv", csvFieldnames, results.threats⟩
    filtered_csv :=
      if results.filtered.isEmpty then none
      else some ⟨base ++ "_filtered.csv", csvFieldnames, results.filtered⟩
    json_path := base ++ "_complete.json"
    json_content := results }

/-! ### `BrandProtectionAgent.analyze_domains` (`agent.py` 239-309) -/

/-- `BrandProtectionAgent.analyze_domains` (`agent.py` 244-309).
`all_domains` is the list returned by `DomainLoader.load_domains` (file
I/O, already stripped and lower-cased by that loader); `Except.error`
models a raised `ValueError`. The optional `save_results` call at the end
returns nothing and is covered separately by `save_results`. -/
def agent_analyze_domains (configured : Bool) (all_domains : List String)
    (brand_name company_name industry description : Option String)
    (batch_size : ℤ) (decode : List Char → Option JValue)
    (oracle : ℕ → ℕ → AttemptOutcome) (jitter : ℕ → ℕ → ℚ)
    (timestamp : String) : Except String BrandAnalysisResult :=
  if !configured then
    .error "GEMINI_API_KEY not found. Please set your API key in environment variables or .env file."
  else
    match get_brand_config brand_name company_name industry description with
    | none => .error "No valid brand configuration provided. Use --brand-name"
    | some brand_config =>
      let keyword := pyOr brand_name (pyLower brand_config.name)
      let relevant_domains := filter_full_word_matches all_domains keyword
      if relevant_domains.isEmpty then
        .ok { metadata :=
                { brand := brand_config.name, keyword := keyword,
                  total_domains := 0, threat_count := 0, filtered_count := 0,
                  false_positive_reduction := "0.0%", timestamp := timestamp,
                  batch_size := batch_size }
              threats := [], filtered := [] }
      else
        .ok (process_results relevant_domains
              (analyze_domains true decode relevant_domains batch_size oracle jitter)
              brand_config batch_size timestamp)

/-! ### Spec-side formalisation of the percentage formula

The spec states the false-positive-reduction field as
`round(filtered_count / total_domains * 100, 1)` rendered with one
decimal place and a trailing `%`. The following two definitions follow
those words (Python `round` rounds half to even); they are compared with
the source-side `fpFormat` in the C6 theorem. -/

/-- Round a rational to the nearest integer, ties to even (Python
`round`). -/
def rheInt (q : ℚ) : ℤ :=
  let n := ⌊q⌋
  let r := q - n
  if r < 1/2 then n
  else if 1/2 < r then n + 1
  else if n % 2 = 0 then n else n + 1

/-- `round(q, 1)` rendered with one decimal place and a trailing `%`. -/
def round1Render (q : ℚ) : String :=
  let tenths := (rheInt (10 * q)).toNat
  toString (tenths / 10) ++ "." ++ toString (tenths % 10) ++ "%"

/-- Invariant: every binding of the dict satisfies `P key value`. -/
def GoodDictP (P : String → PyDict → Prop) (m : List (String × PyDict)) : Prop :=
  ∀ p ∈ m, P p.1 p.2

/-- A concrete brand configuration, used to instantiate theorems. -/
def sampleCfg : BrandConfig :=
  { name := "TUI", industry := "Business", description := "d", context_notes := [] }

/-- A concrete empty analysis result, used to instantiate theorems. -/
def sampleResult : BrandAnalysisResult :=
  { metadata :=
      { brand := "TUI", keyword := "tui", total_domains := 0, threat_count := 0,
        filtered_count := 0, false_positive_reduction := "0.0%",
        timestamp := "t", batch_size := 200 }
    threats := [], filtered := [] }

/-! ## Helper lemmas -/

theorem char_toNat_ofNat (n : ℕ) (h : n.isValidChar) : (Char.ofNat n).toNat = n := by
  simp only [Char.ofNat, dif_pos h, Char.ofNatAux, Char.toNat, UInt32.toNat,
    BitVec.toNat_ofNatLt]

theorem char_ofNat_toNat (c : Char) (h : c.toNat < 55296) : Char.ofNat c.toNat = c := by
  apply Char.ext
  apply UInt32.ext
  have hv : (c.toNat).isValidChar := Or.inl h
  have := char_toNat_ofNat c.toNat hv
  simpa [Char.toNat] using this

/-- Lowering after raising is lowering: `c.upper().lower() == c.lower()`
character-wise. -/
theorem toLower_toUpper (c : Char) : c.toUpper.toLower = c.toLower := by
  simp only [Char.toUpper, Char.toLower]
  by_cases h1 : c.toNat ≥ 97 ∧ c.toNat ≤ 122
  · rw [if_pos h1]
    have hv : (c.toNat - 32).isValidChar := Or.inl (by omega)
    have ht : (Char.ofNat (c.toNat - 32)).toNat = c.toNat - 32 := char_toNat_ofNat _ hv
    rw [ht]
    rw [if_pos (by omega : c.toNat - 32 ≥ 65 ∧ c.toNat - 32 ≤ 90)]
    rw [if_neg (by omega : ¬(c.toNat ≥ 65 ∧ c.toNat ≤ 90))]
    have h32 : c.toNat - 32 + 32 = c.toNat := by omega
    rw [h32]
    exact char_ofNat_toNat c (by omega)
  · rw [if_neg h1]

/-- Lowering is idempotent character-wise. -/
theorem toLower_toLower (c : Char) : c.toLower.toLower = c.toLower := by
  simp only [Char.toLower]
  by_cases h1 : c.toNat ≥ 65 ∧ c.toNat ≤ 90
  · simp only [if_pos h1]
    have hv : (c.toNat + 32).isValidChar := Or.inl (by omega)
    have ht : (Char.ofNat (c.toNat + 32)).toNat = c.toNat + 32 := char_toNat_ofNat _ hv
    rw [ht, if_neg (by omega : ¬(c.toNat + 32 ≥ 65 ∧ c.toNat + 32 ≤ 90))]
  · simp only [if_neg h1]

theorem pyLower_pyUpper (s : String) : pyLower (pyUpper s) = pyLower s := by
  simp only [pyLower, pyUpper, List.map_map]
  congr 1
  exact List.map_congr_left (fun c _ => toLower_toUpper c)

theorem pyLower_pyLower (s : String) : pyLower (pyLower s) = pyLower s := by
  simp only [pyLower, List.map_map]
  congr 1
  exact List.map_congr_left (fun c _ => toLower_toLower c)

theorem strContains_iff {sub s : String} :
    strContains sub s = true ↔ sub.data <:+: s.data := by
  simp [strContains]

/-! ## C2 -/

/-- C2, counterexample: `filter_full_word_matches` is not case-insensitive
on the domain side. For input `["TUI.com"]` and keyword `"tui"`, the
domain contains the keyword as a case-insensitive substring, yet the
result is `[]` rather than `["TUI.com"]`, refuting the claim that exactly
the case-insensitively matching domains are returned. -/
theorem C2_counterexample :
    filter_full_word_matches ["TUI.com"] "tui" = [] ∧
    ciContains "tui" "TUI.com" = true := by decide

/-- C2, amended: `DomainLoader.filter_full_word_matches` returns exactly
the order-preserving subsequence of input domains containing the
lower-cased keyword as a literal substring. Consequently every returned
domain contains the keyword case-insensitively, and on lower-case domain
lists (as produced by `DomainLoader.load_domains`) the filter coincides
with case-insensitive substring filtering; the spec's concrete example
holds. -/
theorem C2_filter_substring (domains : List String) (keyword : String) :
    filter_full_word_matches domains keyword
        = domains.filter (fun d => strContains (pyLower keyword) d) ∧
    (filter_full_word_matches domains keyword).Sublist domains ∧
    (∀ d ∈ filter_full_word_matches domains keyword, ciContains keyword d = true) ∧
    ((∀ d ∈ domains, pyLower d = d) →
      filter_full_word_matches domains keyword
        = domains.filter (fun d => ciContains keyword d)) ∧
    filter_full_word_matches ["tui-corp.com", "other.com", "mytuiglobal.net"] "tui"
        = ["tui-corp.com", "mytuiglobal.net"] := by
  refine ⟨rfl, List.filter_sublist domains, ?_, ?_, by decide⟩
  · intro d hd
    simp only [filter_full_word_matches] at hd
    rw [List.mem_filter] at hd
    have h := strContains_iff.mp hd.2
    unfold ciContains
    apply strContains_iff.mpr
    have hmap := h.map Char.toLower
    have hk : (pyLower keyword).data.map Char.toLower = (pyLower keyword).data := by
      have := congrArg String.data (pyLower_pyLower keyword)
      simpa [pyLower] using this
    rwa [hk] at hmap
  · intro hall
    apply List.filter_congr
    intro d hd
    unfold ciContains
    rw [hall d hd]

/-- C2 witness: the amended theorem applied at the concrete input of the
spec scenario (lower-case domains). -/
theorem C2_filter_substring_witness :
    (∀ d ∈ ["tui-corp.com", "other.com", "mytuiglobal.net"], pyLower d = d) ∧
    filter_full_word_matches ["tui-corp.com", "other.com", "mytuiglobal.net"] "tui"
      = ["tui-corp.com", "other.com", "mytuiglobal.net"].filter
          (fun d => ciContains "tui" d) :=
  ⟨by decide,
   (C2_filter_substring ["tui-corp.com", "other.com", "mytuiglobal.net"] "tui").2.2.2.1
     (by decide)⟩

/-! ## C1 -/

/-- C1: `process_results` produces exactly one `ThreatAnalysis` per input
domain (the two partitions concatenate to a permutation of the classified
domain list), partitions them by `is_threat` with input order preserved
inside each partition (each is the corresponding filter of the classified
list), no domain lands in both partitions and none is omitted,
`len(threats) + len(filtered)` equals the number of input domains, and a
domain missing from the verdict mapping gets the conservative fallback
entry. -/
theorem C1_process_results (domains : List String) (llm : List (String × PyDict))
    (cfg : BrandConfig) (bs : ℤ) (ts : String) :
    (process_results domains llm cfg bs ts).threats
        = (domains.map (classify ts llm)).filter (fun a => jTruthy a.is_threat) ∧
    (process_results domains llm cfg bs ts).filtered
        = (domains.map (classify ts llm)).filter (fun a => !jTruthy a.is_threat) ∧
    ((process_results domains llm cfg bs ts).threats
        ++ (process_results domains llm cfg bs ts).filtered).Perm
        (domains.map (classify ts llm)) ∧
    (process_results domains llm cfg bs ts).threats.length
        + (process_results domains llm cfg bs ts).filtered.length
        = domains.length ∧
    (∀ a ∈ (process_results domains llm cfg bs ts).threats,
        jTruthy a.is_threat = true) ∧
    (∀ a ∈ (process_results domains llm cfg bs ts).filtered,
        jTruthy a.is_threat = false) ∧
    (∀ d, ¬((∃ a ∈ (process_results domains llm cfg bs ts).threats, a.domain = d) ∧
            (∃ a ∈ (process_results domains llm cfg bs ts).filtered, a.domain = d))) ∧
    (∀ d ∈ domains, pyLookup llm d = none →
        classify ts llm d
          = { domain := d, is_threat := .bool true, confidence := .num (1/2),
              reason := .str "LLM evaluation unavailable",
              risk_level := .str "medium", timestamp := ts }) := by
  have ht : (process_results domains llm cfg bs ts).threats
      = (domains.map (classify ts llm)).filter (fun a => jTruthy a.is_threat) := by
    simp [process_results, List.partition_eq_filter_filter]
  have hf : (process_results domains llm cfg bs ts).filtered
      = (domains.map (classify ts llm)).filter (fun a => !jTruthy a.is_threat) := by
    simp [process_results, List.partition_eq_filter_filter, Function.comp_def]
  have hperm : ((process_results domains llm cfg bs ts).threats
      ++ (process_results domains llm cfg bs ts).filtered).Perm
      (domains.map (classify ts llm)) := by
    rw [ht, hf]
    exact List.filter_append_perm _ _
  have hdomain : ∀ a ∈ domains.map (classify ts llm), a = classify ts llm a.domain := by
    intro a ha
    rw [List.mem_map] at ha
    obtain ⟨d', _, rfl⟩ := ha
    rfl
  refine ⟨ht, hf, hperm, ?_, ?_, ?_, ?_, ?_⟩
  · have := hperm.length_eq
    rwa [List.length_append, List.length_map] at this
  · intro a ha
    rw [ht, List.mem_filter] at ha
    exact ha.2
  · intro a ha
    rw [hf, List.mem_filter] at ha
    simpa using ha.2
  · rintro d ⟨⟨a, ha, had⟩, ⟨b, hb, hbd⟩⟩
    rw [ht, List.mem_filter] at ha
    rw [hf, List.mem_filter] at hb
    have h1 : a = classify ts llm d := had ▸ hdomain a ha.1
    have h2 : b = classify ts llm d := hbd ▸ hdomain b hb.1
    have ha2 := ha.2
    have hb2 := hb.2
    rw [h1] at ha2
    rw [h2] at hb2
    simp [ha2] at hb2
  · intro d _ hnone
    simp [classify, hnone, pyGet, pyLookup, unavailableFallback]

/-- C1 witness: concrete run with an empty verdict mapping; the single
domain gets the fallback entry and the counts add up. -/
theorem C1_process_results_witness :
    (process_results ["a.com"] [] sampleCfg 200 "t").threats.length
        + (process_results ["a.com"] [] sampleCfg 200 "t").filtered.length = 1 ∧
    ("a.com" ∈ (["a.com"] : List String) ∧
      pyLookup ([] : List (String × PyDict)) "a.com" = none) ∧
    classify "t" [] "a.com"
      = { domain := "a.com", is_threat := .bool true, confidence := .num (1/2),
          reason := .str "LLM evaluation unavailable",
          risk_level := .str "medium", timestamp := "t" } :=
  ⟨(C1_process_results ["a.com"] [] sampleCfg 200 "t").2.2.2.1,
   ⟨by simp, rfl⟩,
   (C1_process_results ["a.com"] [] sampleCfg 200 "t").2.2.2.2.2.2.2 "a.com"
     (by simp) rfl⟩

/-! ## C6 -/

theorem rheNat_cast (m t : ℕ) (ht : 0 < t) :
    (rheNat m t : ℤ) = rheInt ((m : ℚ) / t) := by
  have htq : (0:ℚ) < t := by exact_mod_cast ht
  have hq0 : 0 ≤ (m : ℚ) / t := by positivity
  have hfl : ⌊(m : ℚ) / t⌋ = ((m / t : ℕ) : ℤ) := by
    rw [← Int.natCast_floor_eq_floor hq0, Nat.floor_div_eq_div]
  have hmod : ((m % t : ℕ) : ℚ) = (m : ℚ) - t * ((m / t : ℕ) : ℚ) := by
    have h := Nat.div_add_mod m t
    have h2 : ((t * (m / t) + m % t : ℕ) : ℚ) = (m : ℚ) := by exact_mod_cast h
    push_cast at h2
    linarith
  have hfrac : (m : ℚ) / t - ((m / t : ℕ) : ℚ) = ((m % t : ℕ) : ℚ) / t := by
    rw [hmod]
    field_simp
  have hlt : ((m : ℚ) / t - ((m / t : ℕ) : ℚ) < 1/2) ↔ 2 * (m % t) < t := by
    rw [hfrac, div_lt_div_iff₀ htq two_pos]
    constructor
    · intro h
      have h3 : ((2 * (m % t) : ℕ) : ℚ) < (t : ℚ) := by push_cast; linarith
      exact_mod_cast h3
    · intro h
      have h3 : ((2 * (m % t) : ℕ) : ℚ) < (t : ℚ) := by exact_mod_cast h
      push_cast at h3
      linarith
  have hgt : (1/2 < (m : ℚ) / t - ((m / t : ℕ) : ℚ)) ↔ t < 2 * (m % t) := by
    rw [hfrac, div_lt_div_iff₀ two_pos htq]
    constructor
    · intro h
      have h3 : (t : ℚ) < ((2 * (m % t) : ℕ) : ℚ) := by push_cast; linarith
      exact_mod_cast h3
    · intro h
      have h3 : (t : ℚ) < ((2 * (m % t) : ℕ) : ℚ) := by exact_mod_cast h
      push_cast at h3
      linarith
  have hpar : ((((m / t : ℕ) : ℤ)) % 2 = 0) ↔ (m / t) % 2 = 0 := by omega
  have hIte : rheInt ((m : ℚ) / t)
      = if 2 * (m % t) < t then ((m / t : ℕ) : ℤ)
        else if t < 2 * (m % t) then ((m / t : ℕ) : ℤ) + 1
        else if (m / t) % 2 = 0 then ((m / t : ℕ) : ℤ) else ((m / t : ℕ) : ℤ) + 1 := by
    simp only [rheInt, hfl, Int.cast_natCast]
    rw [if_congr hlt rfl rfl, if_congr hgt rfl rfl, if_congr hpar rfl rfl]
  rw [hIte]
  simp only [rheNat]
  rcases Nat.lt_trichotomy (2 * (m % t)) t with h | h | h
  · rw [if_pos h, if_pos h]
  · rw [if_neg (show ¬(2 * (m % t) < t) by omega),
      if_neg (show ¬(2 * (m % t) < t) by omega),
      if_neg (show ¬(t < 2 * (m % t)) by omega),
      if_neg (show ¬(t < 2 * (m % t)) by omega)]
    by_cases hp : (m / t) % 2 = 0
    · rw [if_pos hp, if_pos hp]
    · rw [if_neg hp, if_neg hp]
      push_cast
      ring
  · rw [if_neg (show ¬(2 * (m % t) < t) by omega),
      if_neg (show ¬(2 * (m % t) < t) by omega), if_pos h, if_pos h]
    push_cast
    ring

/-- The source-side one-decimal percentage format agrees with the
spec-side `round(x, 1)` rendering on exact rationals. -/
theorem fpFormat_eq_round1Render (f t : ℕ) (ht : 0 < t) :
    fpFormat f t = round1Render ((f : ℚ) * 100 / t) := by
  unfold fpFormat round1Render
  have h10 : 10 * ((f : ℚ) * 100 / t) = ((f * 1000 : ℕ) : ℚ) / t := by
    push_cast
    ring
  rw [h10, ← rheNat_cast (f * 1000) t ht, Int.toNat_natCast]

/-- C6: the `false_positive_reduction` field written by `process_results`
equals `round(filtered_count / total_domains * 100, 1)` (the metadata's
own counts) rendered with one decimal place and a `%` sign, and is
`"0.0%"` for an empty input domain list. The float formatting of the
source is modelled by exact rational rounding (ties to even), the same
rounding the spec's `round(x, 1)` denotes. -/
theorem C6_false_positive_reduction (domains : List String)
    (llm : List (String × PyDict)) (cfg : BrandConfig) (bs : ℤ) (ts : String) :
    (process_results domains llm cfg bs ts).metadata.false_positive_reduction
      = if domains.isEmpty then "0.0%"
        else round1Render
          (((process_results domains llm cfg bs ts).metadata.filtered_count : ℚ) * 100
            / ((process_results domains llm cfg bs ts).metadata.total_domains : ℚ)) := by
  by_cases hd : domains.isEmpty
  · simp [process_results, hd]
  · have hlen : 0 < domains.length := by
      cases domains with
      | nil => simp at hd
      | cons a l => simp
    simp only [process_results, if_neg hd]
    exact fpFormat_eq_round1Render _ _ hlen

/-! ## C7 -/

set_option maxRecDepth 20000 in
/-- C7, code bug: `_create_dynamic_brand_config` defaults `description`
from the `company_name` argument before `company_name` itself is
defaulted, so with only a brand name supplied the generated description
reads `"None is a company ..."` instead of referencing the (defaulted)
company name: name and industry default as claimed, but the boilerplate
does not reference the company name (here `"tui"`) even
case-insensitively. -/
theorem C7_description_none_bug :
    (create_dynamic_brand_config "tui" none none none).description
        = "None is a company that users want to protect from domain impersonation and cybersquatting." ∧
    (create_dynamic_brand_config "tui" none none none).name = "TUI" ∧
    (create_dynamic_brand_config "tui" none none none).industry = "Business" ∧
    (create_dynamic_brand_config "tui" none none none).context_notes.length = 4 ∧
    ciContains "tui" (create_dynamic_brand_config "tui" none none none).description
        = false := by decide

/-! ## Dict machinery for the analyzer claims -/

theorem pyLookup_none_of_any_false {α : Type} {m : List (String × α)} {k : String}
    (h : m.any (fun p => p.1 = k) = false) : pyLookup m k = none := by
  induction m with
  | nil => rfl
  | cons p rest ih =>
    simp only [List.any_cons, Bool.or_eq_false_iff] at h
    simp only [pyLookup, if_neg (by simpa using h.1)]
    exact ih h.2

theorem pyLookup_append {α : Type} (m₁ m₂ : List (String × α)) (k : String) :
    pyLookup (m₁ ++ m₂) k
      = match pyLookup m₁ k with
        | some v => some v
        | none => pyLookup m₂ k := by
  induction m₁ with
  | nil => rfl
  | cons p rest ih =>
    by_cases h : p.1 = k
    · simp [pyLookup, h]
    · simpa [pyLookup, h] using ih

theorem pyLookup_pyUpdate_self {α : Type} (m : List (String × α)) (k : String)
    (v : α) : pyLookup (pyUpdate m k v) k = some v := by
  unfold pyUpdate
  by_cases h : m.any (fun p => p.1 = k)
  · rw [if_pos h]
    induction m with
    | nil => simp at h
    | cons p rest ih =>
      by_cases hp : p.1 = k
      · simp [pyLookup, hp]
      · simp only [List.any_cons, hp] at h
        simp only [List.map_cons, if_neg hp]
        simp only [pyLookup, if_neg hp]
        exact ih (by simpa [hp] using h)
  · rw [if_neg h]
    rw [pyLookup_append]
    rw [pyLookup_none_of_any_false (Bool.eq_false_iff.mpr h)]
    simp [pyLookup]

theorem pyLookup_pyUpdate_ne {α : Type} (m : List (String × α)) (k k' : String)
    (v : α) (h : k' ≠ k) : pyLookup (pyUpdate m k v) k' = pyLookup m k' := by
  unfold pyUpdate
  by_cases hany : m.any (fun p => p.1 = k)
  · rw [if_pos hany]
    clear hany
    induction m with
    | nil => rfl
    | cons p rest ih =>
      by_cases hp : p.1 = k
      · simp only [List.map_cons, if_pos hp, pyLookup,
          if_neg (show ¬(k, v).1 = k' from fun hc => h hc.symm),
          if_neg (show ¬p.1 = k' from hp ▸ fun hc => h hc.symm)]
        exact ih
      · simp only [List.map_cons, if_neg hp, pyLookup]
        by_cases hp' : p.1 = k'
        · simp [hp']
        · simp only [if_neg hp']
          exact ih
  · rw [if_neg hany, pyLookup_append]
    cases hm : pyLookup m k' with
    | some v' => simp
    | none => simp [pyLookup, if_neg (show ¬k = k' from fun hc => h hc.symm)]

theorem pyLookup_isSome_pyUpdate {α : Type} (m : List (String × α))
    (k k' : String) (v : α) (h : (pyLookup m k').isSome) :
    (pyLookup (pyUpdate m k v) k').isSome := by
  by_cases hk : k' = k
  · subst hk
    rw [pyLookup_pyUpdate_self]
    rfl
  · rwa [pyLookup_pyUpdate_ne m k k' v hk]

theorem pyLookup_mem {α : Type} {m : List (String × α)} {k : String} {v : α}
    (h : pyLookup m k = some v) : (k, v) ∈ m := by
  induction m with
  | nil => simp [pyLookup] at h
  | cons p rest ih =>
    by_cases hp : p.1 = k
    · simp only [pyLookup, if_pos hp] at h
      obtain ⟨p1, p2⟩ := p
      simp only at hp h
      subst hp
      injection h with hv
      subst hv
      exact List.mem_cons_self _ _
    · simp only [pyLookup, if_neg hp] at h
      exact List.mem_cons_of_mem _ (ih h)

theorem goodDictP_pyUpdate {P : String → PyDict → Prop}
    {m : List (String × PyDict)} {k : String} {v : PyDict}
    (hm : GoodDictP P m) (hv : P k v) : GoodDictP P (pyUpdate m k v) := by
  unfold pyUpdate
  by_cases h : m.any (fun p => p.1 = k)
  · rw [if_pos h]
    intro q hq
    rw [List.mem_map] at hq
    obtain ⟨p, hp, hpq⟩ := hq
    by_cases hpk : p.1 = k
    · rw [if_pos hpk] at hpq
      subst hpq
      exact hv
    · rw [if_neg hpk] at hpq
      subst hpq
      exact hm p hp
  · rw [if_neg h]
    intro q hq
    rw [List.mem_append] at hq
    rcases hq with hq | hq
    · exact hm q hq
    · simp only [List.mem_singleton] at hq
      subst hq
      exact hv

theorem goodDictP_lookup {P : String → PyDict → Prop}
    {m : List (String × PyDict)} {d : String} {v : PyDict}
    (hm : GoodDictP P m) (h : pyLookup m d = some v) : P d v :=
  hm (d, v) (pyLookup_mem h)

theorem assignAll_goodP {P : String → PyDict → Prop} {val : String → PyDict}
    (hval : ∀ d, P d (val d)) :
    ∀ (batch : List String) (m : List (String × PyDict)),
      GoodDictP P m → GoodDictP P (assignAll batch val m) := by
  intro batch
  induction batch with
  | nil => exact fun m hm => hm
  | cons b rest ih =>
    intro m hm
    exact ih _ (goodDictP_pyUpdate hm (hval b))

theorem assignAll_isSome_mono {val : String → PyDict} :
    ∀ (batch : List String) (m : List (String × PyDict)) (d : String),
      (pyLookup m d).isSome → (pyLookup (assignAll batch val m) d).isSome := by
  intro batch
  induction batch with
  | nil => exact fun m d h => h
  | cons b rest ih =>
    intro m d h
    exact ih _ d (pyLookup_isSome_pyUpdate m b d (val b) h)

theorem assignAll_isSome_of_mem {val : String → PyDict} :
    ∀ (batch : List String) (m : List (String × PyDict)) (d : String),
      d ∈ batch → (pyLookup (assignAll batch val m) d).isSome := by
  intro batch
  induction batch with
  | nil => intro m d h; simp at h
  | cons b rest ih =>
    intro m d h
    rcases List.mem_cons.mp h with h | h
    · subst h
      apply assignAll_isSome_mono rest
      rw [pyLookup_pyUpdate_self]
      rfl
    · exact ih _ d h

theorem assignAll_lookup_not_mem {val : String → PyDict} :
    ∀ (batch : List String) (m : List (String × PyDict)) (d : String),
      d ∉ batch → pyLookup (assignAll batch val m) d = pyLookup m d := by
  intro batch
  induction batch with
  | nil => exact fun m d _ => rfl
  | cons b rest ih =>
    intro m d h
    rw [List.mem_cons] at h
    push_neg at h
    rw [assignAll, List.foldl_cons]
    rw [show rest.foldl (fun m d => pyUpdate m d (val d)) (pyUpdate m b (val b))
          = assignAll rest val (pyUpdate m b (val b)) from rfl]
    rw [ih _ d h.2]
    exact pyLookup_pyUpdate_ne m b d (val b) h.1

theorem assignAll_lookup_of_mem {val : String → PyDict} :
    ∀ (batch : List String) (m : List (String × PyDict)) (d : String),
      d ∈ batch → pyLookup (assignAll batch val m) d = some (val d) := by
  intro batch
  induction batch with
  | nil => intro m d h; simp at h
  | cons b rest ih =>
    intro m d h
    by_cases hr : d ∈ rest
    · exact ih _ d hr
    · have hd : d = b := by
        rcases List.mem_cons.mp h with h | h
        · exact h
        · exact absurd h hr
      subst hd
      rw [assignAll, List.foldl_cons]
      rw [show rest.foldl (fun m d => pyUpdate m d (val d)) (pyUpdate m d (val d))
            = assignAll rest val (pyUpdate m d (val d)) from rfl]
      rw [assignAll_lookup_not_mem rest _ d hr]
      exact pyLookup_pyUpdate_self m d (val d)

/-- When every batch ends in a uniform per-batch assignment, the whole
batch loop preserves the binding invariant, preserves present keys, and
covers every batched domain. -/
theorem runBatches_spec {P : String → PyDict → Prop}
    (decode : List Char → Option JValue) (oracle : ℕ → ℕ → AttemptOutcome)
    (jitter : ℕ → ℕ → ℚ)
    (h : ∀ b, ∃ val : String → PyDict,
      (∀ (m : List (String × PyDict)) (batch : List String),
        applyBatch m batch (runBatch decode batch (oracle b) (jitter b) 3) 3
          = assignAll batch val m) ∧
      (∀ d, P d (val d))) :
    ∀ (batches : List (List String)) (b0 : ℕ) (m : List (String × PyDict)),
      GoodDictP P m →
      GoodDictP P (runBatches decode oracle jitter b0 batches m) ∧
      (∀ d, (pyLookup m d).isSome →
        (pyLookup (runBatches decode oracle jitter b0 batches m) d).isSome) ∧
      (∀ d batch, batch ∈ batches → d ∈ batch →
        (pyLookup (runBatches decode oracle jitter b0 batches m) d).isSome) := by
  intro batches
  induction batches with
  | nil =>
    intro b0 m hm
    exact ⟨hm, fun d hd => hd, fun d batch hb => absurd hb (List.not_mem_nil _)⟩
  | cons batch rest ih =>
    intro b0 m hm
    obtain ⟨val, happ, hval⟩ := h b0
    have hstep : runBatches decode oracle jitter b0 (batch :: rest) m
        = runBatches decode oracle jitter (b0 + 1) rest (assignAll batch val m) := by
      rw [runBatches, happ]
    obtain ⟨ihg, ihm, ihc⟩ := ih (b0 + 1) (assignAll batch val m)
      (assignAll_goodP hval batch m hm)
    refine ⟨hstep ▸ ihg, ?_, ?_⟩
    · intro d hd
      rw [hstep]
      exact ihm d (assignAll_isSome_mono batch m d hd)
    · intro d batch' hb' hd'
      rw [hstep]
      rcases List.mem_cons.mp hb' with hb' | hb'
      · subst hb'
        exact ihm d (assignAll_isSome_of_mem batch' m d hd')
      · exact ihc d batch' hb' hd'

theorem chunks_cover_aux {α : Type} (n : ℕ) (hn : 0 < n) :
    ∀ (N : ℕ) (l : List α), l.length ≤ N → ∀ d ∈ l, ∃ c ∈ chunks n l, d ∈ c := by
  intro N
  induction N with
  | zero =>
    intro l hl d hd
    rw [Nat.le_zero, List.length_eq_zero] at hl
    subst hl
    simp at hd
  | succ N IH =>
    intro l hl d hd
    cases l with
    | nil => simp at hd
    | cons x xs =>
      have hne : n ≠ 0 := by omega
      have hchunk : chunks n (x :: xs)
          = (x :: xs).take n :: chunks n ((x :: xs).drop n) := by
        rw [chunks]
        simp [hne]
      have hsplit : d ∈ (x :: xs).take n ∨ d ∈ (x :: xs).drop n := by
        rw [← List.mem_append, List.take_append_drop]
        exact hd
      rcases hsplit with hs | hs
      · exact ⟨(x :: xs).take n, hchunk ▸ List.mem_cons_self _ _, hs⟩
      · have hlen : ((x :: xs).drop n).length ≤ N := by
          simp only [List.length_drop, List.length_cons]
          simp only [List.length_cons] at hl
          omega
        obtain ⟨c, hc, hdc⟩ := IH ((x :: xs).drop n) hlen d hs
        exact ⟨c, hchunk ▸ List.mem_cons_of_mem _ hc, hdc⟩

theorem chunks_cover {α : Type} (n : ℕ) (hn : 0 < n) (l : List α) (d : α)
    (hd : d ∈ l) : ∃ c ∈ chunks n l, d ∈ c :=
  chunks_cover_aux n hn l.length l le_rfl d hd

theorem effective_batch_size_pos (batch_size : ℤ) :
    0 < (effective_batch_size batch_size).toNat := by
  unfold effective_batch_size
  split <;> omega

/-! ## C3 -/

/-- One batch whose every generation attempt raises an overload error:
three attempts, two backoff sleeps of `15 * 2 ^ attempt` plus jitter, then
the overload fallback. -/
theorem runBatch_all_overload (decode : List Char → Option JValue)
    (batch : List String) (outcomes : ℕ → AttemptOutcome) (jitter : ℕ → ℚ)
    (msgs : ℕ → String)
    (herr : ∀ n, outcomes n = .error (msgs n))
    (hover : ∀ n, isOverloadMsg (msgs n) = true) :
    runBatch decode batch outcomes jitter 3
      = { outcome := .fallbackOverload,
          sleeps := [15 * 2 ^ 0 + jitter 0, 15 * 2 ^ 1 + jitter 1],
          attempts := 3 } := by
  simp [runBatch, runBatchLoop, herr 0, herr 1, herr 2, hover 0, hover 1, hover 2]

/-- C3: when every generation attempt of every batch raises an error whose
message indicates overload, each batch performs exactly 3 attempts with
backoff sleeps `15 * 2 ^ 0 + jitter` and `15 * 2 ^ 1 + jitter` before
falling back, the sleeps are strictly increasing for jitter in `[0, 5)`,
the fallback verdict has exactly the claimed fields, and after exhaustion
every domain of every batch ends up with that fallback verdict (processing
continues through all batches). -/
theorem C3_overload_retries
    (decode : List Char → Option JValue) (domains : List String) (batch_size : ℤ)
    (oracle : ℕ → ℕ → AttemptOutcome) (jitter : ℕ → ℕ → ℚ) (msgs : ℕ → ℕ → String)
    (herr : ∀ b n, oracle b n = .error (msgs b n))
    (hover : ∀ b n, isOverloadMsg (msgs b n) = true)
    (hjit : ∀ b n, 0 ≤ jitter b n ∧ jitter b n < 5) :
    (∀ b (batch : List String),
      runBatch decode batch (oracle b) (jitter b) 3
        = { outcome := .fallbackOverload,
            sleeps := [15 * 2 ^ 0 + jitter b 0, 15 * 2 ^ 1 + jitter b 1],
            attempts := 3 }) ∧
    (∀ b, 15 * 2 ^ 0 + jitter b 0 < 15 * 2 ^ 1 + jitter b 1) ∧
    (∀ d, overloadFallback d 3
        = [("domain", .str d), ("relevant", .bool true), ("confidence", .num (1/2)),
           ("reason", .str "API overloaded after 3 retries"),
           ("risk_level", .str "medium")]) ∧
    (∀ d ∈ domains,
      pyLookup (analyze_domains true decode domains batch_size oracle jitter) d
        = some (overloadFallback d 3)) := by
  have hbatch : ∀ b (batch : List String),
      runBatch decode batch (oracle b) (jitter b) 3
        = { outcome := .fallbackOverload,
            sleeps := [15 * 2 ^ 0 + jitter b 0, 15 * 2 ^ 1 + jitter b 1],
            attempts := 3 } := fun b batch =>
    runBatch_all_overload decode batch (oracle b) (jitter b) (msgs b) (herr b) (hover b)
  refine ⟨hbatch, ?_, fun d => rfl, ?_⟩
  · intro b
    have h0 := hjit b 0
    have h1 := hjit b 1
    have e0 : (15 : ℚ) * 2 ^ 0 = 15 := by norm_num
    have e1 : (15 : ℚ) * 2 ^ 1 = 30 := by norm_num
    rw [e0, e1]
    linarith [h0.2, h1.1]
  · intro d hd
    have hspec := runBatches_spec (P := fun d v => v = overloadFallback d 3)
      decode oracle jitter
      (fun b => ⟨fun d => overloadFallback d 3,
        fun m batch => by rw [applyBatch, hbatch b batch], fun d => rfl⟩)
      (chunks (effective_batch_size batch_size).toNat domains) 0 []
      (fun p hp => absurd hp (List.not_mem_nil p))
    have hana : analyze_domains true decode domains batch_size oracle jitter
        = runBatches decode oracle jitter 0
            (chunks (effective_batch_size batch_size).toNat domains) [] := rfl
    obtain ⟨c, hc, hdc⟩ :=
      chunks_cover _ (effective_batch_size_pos batch_size) domains d hd
    have hsome := hspec.2.2 d c hc hdc
    rw [← hana] at hsome
    obtain ⟨v, hv⟩ := Option.isSome_iff_exists.mp hsome
    have hgood := goodDictP_lookup (hspec.1) (hana ▸ hv)
    rw [hv, hgood]

/-- C3 witness: a concrete always-overloading oracle on one domain. -/
theorem C3_overload_retries_witness :
    (∀ (b n : ℕ), (fun (_ _ : ℕ) => AttemptOutcome.error "503") b n
        = .error ((fun (_ _ : ℕ) => "503") b n)) ∧
    (∀ (b n : ℕ), isOverloadMsg ((fun (_ _ : ℕ) => "503") b n) = true) ∧
    (∀ (b n : ℕ), 0 ≤ (fun (_ _ : ℕ) => (0 : ℚ)) b n ∧
        (fun (_ _ : ℕ) => (0 : ℚ)) b n < 5) ∧
    pyLookup (analyze_domains true (fun _ => none) ["a.com"] 200
        (fun _ _ => .error "503") (fun _ _ => 0)) "a.com"
      = some (overloadFallback "a.com" 3) :=
  ⟨fun _ _ => rfl, fun _ _ => (by decide : isOverloadMsg "503" = true),
   fun _ _ => ⟨le_refl 0, by norm_num⟩,
   (C3_overload_retries (fun _ => none) ["a.com"] 200 (fun _ _ => .error "503")
      (fun _ _ => 0) (fun _ _ => "503") (fun _ _ => rfl)
      (fun _ _ => (by decide : isOverloadMsg "503" = true))
      (fun _ _ => ⟨le_refl 0, by norm_num⟩)).2.2.2 "a.com" (by simp)⟩

/-! ## C4 -/

/-- One batch whose first generation attempt raises a non-overload error:
exactly one attempt, no backoff sleep, immediate error fallback. -/
theorem runBatch_first_error (decode : List Char → Option JValue)
    (batch : List String) (outcomes : ℕ → AttemptOutcome) (jitter : ℕ → ℚ)
    (msg : String) (herr : outcomes 0 = .error msg)
    (hnov : isOverloadMsg msg = false) :
    runBatch decode batch outcomes jitter 3
      = { outcome := .fallbackError msg, sleeps := [], attempts := 1 } := by
  simp [runBatch, runBatchLoop, herr, hnov]

/-- C4: when the first generation attempt of each batch raises an error
whose message does not indicate overload, the batch performs exactly one
attempt with no backoff sleep, every domain of the batch is assigned the
conservative fallback verdict whose reason `"API error: <msg>"` contains
the raised error text as a substring, and all batches are still
processed. -/
theorem C4_non_overload_error
    (decode : List Char → Option JValue) (domains : List String) (batch_size : ℤ)
    (oracle : ℕ → ℕ → AttemptOutcome) (jitter : ℕ → ℕ → ℚ) (msgs : ℕ → String)
    (herr : ∀ b, oracle b 0 = .error (msgs b))
    (hnov : ∀ b, isOverloadMsg (msgs b) = false) :
    (∀ b (batch : List String),
      runBatch decode batch (oracle b) (jitter b) 3
        = { outcome := .fallbackError (msgs b), sleeps := [], attempts := 1 }) ∧
    (∀ d b, errorFallback d (msgs b)
        = [("domain", .str d), ("relevant", .bool true), ("confidence", .num (1/2)),
           ("reason", .str ("API error: " ++ msgs b)),
           ("risk_level", .str "medium")]) ∧
    (∀ b, strContains (msgs b) ("API error: " ++ msgs b) = true) ∧
    (∀ d ∈ domains, ∃ b,
      pyLookup (analyze_domains true decode domains batch_size oracle jitter) d
        = some (errorFallback d (msgs b))) := by
  have hbatch : ∀ b (batch : List String),
      runBatch decode batch (oracle b) (jitter b) 3
        = { outcome := .fallbackError (msgs b), sleeps := [], attempts := 1 } :=
    fun b batch =>
      runBatch_first_error decode batch (oracle b) (jitter b) (msgs b) (herr b) (hnov b)
  refine ⟨hbatch, fun d b => rfl, ?_, ?_⟩
  · intro b
    apply strContains_iff.mpr
    rw [String.data_append]
    exact (List.suffix_append _ _).isInfix
  · intro d hd
    have hspec := runBatches_spec
      (P := fun d v => ∃ b, v = errorFallback d (msgs b)) decode oracle jitter
      (fun b => ⟨fun d => errorFallback d (msgs b),
        fun m batch => by rw [applyBatch, hbatch b batch], fun d => ⟨b, rfl⟩⟩)
      (chunks (effective_batch_size batch_size).toNat domains) 0 []
      (fun p hp => absurd hp (List.not_mem_nil p))
    have hana : analyze_domains true decode domains batch_size oracle jitter
        = runBatches decode oracle jitter 0
            (chunks (effective_batch_size batch_size).toNat domains) [] := rfl
    obtain ⟨c, hc, hdc⟩ :=
      chunks_cover _ (effective_batch_size_pos batch_size) domains d hd
    have hsome := hspec.2.2 d c hc hdc
    rw [← hana] at hsome
    obtain ⟨v, hv⟩ := Option.isSome_iff_exists.mp hsome
    obtain ⟨b, hb⟩ := goodDictP_lookup (hspec.1) (hana ▸ hv)
    exact ⟨b, by rw [hv, hb]⟩

/-- C4 witness: a concrete oracle that always raises a non-overload error
on the first attempt. -/
theorem C4_non_overload_error_witness :
    (∀ b : ℕ, (fun (_ _ : ℕ) => AttemptOutcome.error "400 bad request") b 0
        = .error "400 bad request") ∧
    (∀ _b : ℕ, isOverloadMsg "400 bad request" = false) ∧
    (∃ _b : ℕ, pyLookup (analyze_domains true (fun _ => none) ["a.com"] 200
        (fun _ _ => .error "400 bad request") (fun _ _ => 0)) "a.com"
      = some (errorFallback "a.com" "400 bad request")) :=
  ⟨fun _ => rfl, fun _ => (by decide : isOverloadMsg "400 bad request" = false),
   (C4_non_overload_error (fun _ => none) ["a.com"] 200
      (fun _ _ => .error "400 bad request") (fun _ _ => 0)
      (fun _ => "400 bad request") (fun _ => rfl)
      (fun _ => (by decide : isOverloadMsg "400 bad request" = false))).2.2.2
      "a.com" (by simp)⟩

/-! ## C5 -/

theorem applyThreats_cons_notStr (batch : List String) (fields : PyDict)
    (rest : List JValue) (m : List (String × PyDict))
    (h : ∀ d0, pyLookup fields "domain" ≠ some (.str d0)) :
    applyThreats batch (.obj fields :: rest) m = applyThreats batch rest m := by
  cases hdom : pyLookup fields "domain" with
  | none => simp [applyThreats, hdom]
  | some v =>
    cases v with
    | str d0 => exact absurd hdom (h d0)
    | null => simp [applyThreats, hdom]
    | bool b => simp [applyThreats, hdom]
    | num q => simp [applyThreats, hdom]
    | arr xs => simp [applyThreats, hdom]
    | obj fs => simp [applyThreats, hdom]

theorem threatNames_cons_notStr (fields : PyDict) (rest : List JValue)
    (h : ∀ d0, pyLookup fields "domain" ≠ some (.str d0)) :
    threatNames (.obj fields :: rest) = threatNames rest := by
  cases hdom : pyLookup fields "domain" with
  | none => simp [threatNames, hdom]
  | some v =>
    cases v with
    | str d0 => exact absurd hdom (h d0)
    | null => simp [threatNames, hdom]
    | bool b => simp [threatNames, hdom]
    | num q => simp [threatNames, hdom]
    | arr xs => simp [threatNames, hdom]
    | obj fs => simp [threatNames, hdom]

theorem threatNames_cons_str (fields : PyDict) (rest : List JValue) (d0 : String)
    (hdom : pyLookup fields "domain" = some (.str d0)) :
    threatNames (.obj fields :: rest) = d0 :: threatNames rest := by
  simp [threatNames, hdom]

/-- Running the `threats` loop over well-formed entries never raises,
keeps un-named keys untouched and adds exactly the named in-batch keys. -/
theorem applyThreats_spec (batch : List String) :
    ∀ (items : List JValue), (∀ item ∈ items, WfItem batch item) →
    ∀ m : List (String × PyDict), ∃ r, applyThreats batch items m = some r ∧
      (∀ d, d ∉ threatNames items → pyLookup r d = pyLookup m d) ∧
      (∀ d, (pyLookup r d).isSome ↔
        ((pyLookup m d).isSome ∨ (d ∈ threatNames items ∧ d ∈ batch))) := by
  intro items
  induction items with
  | nil =>
    intro _ m
    refine ⟨m, rfl, fun d _ => rfl, fun d => ?_⟩
    simp [threatNames]
  | cons item rest ih =>
    intro hwf m
    obtain ⟨fields, rfl, hrisk⟩ := hwf item (List.mem_cons_self _ _)
    have hwfr : ∀ i ∈ rest, WfItem batch i :=
      fun i hi => hwf i (List.mem_cons_of_mem _ hi)
    by_cases hstr : ∃ d0, pyLookup fields "domain" = some (.str d0)
    · obtain ⟨d0, hdom⟩ := hstr
      have hnames := threatNames_cons_str fields rest d0 hdom
      by_cases hb : d0 ∈ batch
      · obtain ⟨risk, hR⟩ := hrisk d0 hdom hb
        obtain ⟨r, heq, hun, hkey⟩ := ih hwfr (pyUpdate m d0 (threatVerdict d0 fields risk))
        refine ⟨r, ?_, ?_, ?_⟩
        · simp only [applyThreats, hdom, if_pos hb, hR]
          exact heq
        · intro d hd
          rw [hnames, List.mem_cons] at hd
          push_neg at hd
          rw [hun d hd.2]
          exact pyLookup_pyUpdate_ne m d0 d _ hd.1
        · intro d
          rw [hnames, hkey d]
          by_cases hdd : d = d0
          · subst hdd
            rw [pyLookup_pyUpdate_self]
            simp [hb]
          · rw [pyLookup_pyUpdate_ne m d0 d _ hdd]
            simp only [List.mem_cons]
            constructor
            · rintro (h | ⟨h1, h2⟩)
              · left; exact h
              · right; exact ⟨Or.inr h1, h2⟩
            · rintro (h | ⟨h1 | h1, h2⟩)
              · left; exact h
              · exact absurd h1 hdd
              · right; exact ⟨h1, h2⟩
      · obtain ⟨r, heq, hun, hkey⟩ := ih hwfr m
        refine ⟨r, ?_, ?_, ?_⟩
        · simp only [applyThreats, hdom, if_neg hb]
          exact heq
        · intro d hd
          rw [hnames, List.mem_cons] at hd
          push_neg at hd
          exact hun d hd.2
        · intro d
          rw [hnames, hkey d]
          simp only [List.mem_cons]
          constructor
          · rintro (h | ⟨h1, h2⟩)
            · left; exact h
            · right; exact ⟨Or.inr h1, h2⟩
          · rintro (h | ⟨h1 | h1, h2⟩)
            · left; exact h
            · subst h1; exact absurd h2 hb
            · right; exact ⟨h1, h2⟩
    · push_neg at hstr
      have hnames := threatNames_cons_notStr fields rest hstr
      obtain ⟨r, heq, hun, hkey⟩ := ih hwfr m
      refine ⟨r, ?_, ?_, ?_⟩
      · rw [applyThreats_cons_notStr batch fields rest m hstr]
        exact heq
      · intro d hd
        rw [hnames] at hd
        exact hun d hd
      · intro d
        rw [hnames]
        exact hkey d

/-- With distinct names in the `threats` array, a named in-batch domain
ends with exactly its entry's threat verdict. -/
theorem applyThreats_named (batch : List String) :
    ∀ (items : List JValue), (∀ item ∈ items, WfItem batch item) →
      (threatNames items).Nodup →
      ∀ (m : List (String × PyDict)) (fields : PyDict) (d : String) (risk : String),
        (.obj fields) ∈ items →
        pyLookup fields "domain" = some (.str d) → d ∈ batch →
        pyGet fields "risk_level" (.str "medium") = .str risk →
        ∀ r, applyThreats batch items m = some r →
          pyLookup r d = some (threatVerdict d fields risk) := by
  intro items
  induction items with
  | nil =>
    intro _ _ m fields d risk hmem
    exact absurd hmem (List.not_mem_nil _)
  | cons item rest ih =>
    intro hwf hnodup m fields d risk hmem hdom hb hR r heq
    have hwfr : ∀ i ∈ rest, WfItem batch i :=
      fun i hi => hwf i (List.mem_cons_of_mem _ hi)
    rcases List.mem_cons.mp hmem with hhead | htail
    · subst hhead
      have hnames := threatNames_cons_str fields rest d hdom
      have hdnot : d ∉ threatNames rest := by
        rw [hnames] at hnodup
        exact (List.nodup_cons.mp hnodup).1
      simp only [applyThreats, hdom, if_pos hb, hR] at heq
      obtain ⟨r', heq', hun', _⟩ :=
        applyThreats_spec batch rest hwfr (pyUpdate m d (threatVerdict d fields risk))
      rw [heq'] at heq
      injection heq with heq
      subst heq
      rw [hun' d hdnot]
      exact pyLookup_pyUpdate_self m d _
    · obtain ⟨fields0, rfl, hrisk0⟩ := hwf item (List.mem_cons_self _ _)
      have hdinrest : d ∈ threatNames rest := by
        unfold threatNames
        rw [List.mem_filterMap]
        exact ⟨.obj fields, htail, by simp [hdom]⟩
      by_cases hstr : ∃ e0, pyLookup fields0 "domain" = some (.str e0)
      · obtain ⟨e0, hdom0⟩ := hstr
        have hnames := threatNames_cons_str fields0 rest e0 hdom0
        have hnodup' : (threatNames rest).Nodup := by
          rw [hnames] at hnodup
          exact (List.nodup_cons.mp hnodup).2
        by_cases hb0 : e0 ∈ batch
        · obtain ⟨risk0, hR0⟩ := hrisk0 e0 hdom0 hb0
          simp only [applyThreats, hdom0, if_pos hb0, hR0] at heq
          exact ih hwfr hnodup' _ fields d risk htail hdom hb hR r heq
        · simp only [applyThreats, hdom0, if_neg hb0] at heq
          exact ih hwfr hnodup' m fields d risk htail hdom hb hR r heq
      · push_neg at hstr
        have hnames := threatNames_cons_notStr fields0 rest hstr
        have hnodup' : (threatNames rest).Nodup := hnames ▸ hnodup
        rw [applyThreats_cons_notStr batch fields0 rest m hstr] at heq
        exact ih hwfr hnodup' m fields d risk htail hdom hb hR r heq


/-- C5: `_parse_response` extracts the brace-delimited substring running
from the first `{` to the last `}` (the leftmost-greedy regex match),
returns the empty mapping when no such substring exists or it fails to
decode, and otherwise builds one verdict per batch domain: every batch
domain defaults to the no-threat verdict and exactly the batch domains
named in the decoded `threats` array are overwritten with the threat
verdict (confidence defaulting to 0.8, reason to "Potential threat",
risk level lower-cased defaulting to "medium"). -/
theorem C5_parse_response (decode : List Char → Option JValue)
    (response : List Char) (batch : List String) :
    (extractJson response = none → parse_response decode response batch = []) ∧
    (∀ s, extractJson response = some s → decode s = none →
      parse_response decode response batch = []) ∧
    (∀ s fields items, extractJson response = some s →
      decode s = some (.obj fields) →
      pyGet fields "threats" (.arr []) = .arr items →
      (∀ item ∈ items, WfItem batch item) →
      (∀ d, (pyLookup (parse_response decode response batch) d).isSome
          ↔ d ∈ batch) ∧
      (∀ d ∈ batch, d ∉ threatNames items →
        pyLookup (parse_response decode response batch) d
          = some (noThreatVerdict d)) ∧
      ((threatNames items).Nodup →
        ∀ (flds : PyDict) (d risk : String), (.obj flds) ∈ items →
          pyLookup flds "domain" = some (.str d) → d ∈ batch →
          pyGet flds "risk_level" (.str "medium") = .str risk →
          pyLookup (parse_response decode response batch) d
            = some (threatVerdict d flds risk))) := by
  refine ⟨?_, ?_, ?_⟩
  · intro hex
    simp [parse_response, hex]
  · intro s hex hdec
    simp [parse_response, hex, hdec]
  · intro s fields items hex hdec hth hwf
    obtain ⟨r, heq, hun, hkey⟩ :=
      applyThreats_spec batch items hwf (assignAll batch noThreatVerdict [])
    have hp : parse_response decode response batch = r := by
      have hfold : List.foldl (fun m d => pyUpdate m d (noThreatVerdict d)) [] batch
          = assignAll batch noThreatVerdict [] := rfl
      simp only [parse_response, hex, hdec, buildVerdicts, hth]
      rw [hfold, heq, Option.getD_some]
    refine ⟨?_, ?_, ?_⟩
    · intro d
      rw [hp, hkey d]
      by_cases hdb : d ∈ batch
      · rw [assignAll_lookup_of_mem batch [] d hdb]
        simp [hdb]
      · rw [assignAll_lookup_not_mem batch [] d hdb]
        simp [hdb, pyLookup]
    · intro d hdb hni
      rw [hp, hun d hni]
      exact assignAll_lookup_of_mem batch [] d hdb
    · intro hnodup flds d risk hmem hdom hdb hR
      rw [hp]
      exact applyThreats_named batch items hwf hnodup _ flds d risk hmem hdom hdb hR r heq

/-- C5 witness: a concrete response naming one of two batch domains; the
named domain is overwritten, the other keeps the no-threat default. -/
theorem C5_parse_response_witness :
    (extractJson "x {j} y".data = some "{j}".data ∧
      (fun (_ : List Char) =>
        some (JValue.obj [("threats",
          JValue.arr [JValue.obj [("domain", JValue.str "a.com")]])]))
        "{j}".data
        = some (JValue.obj [("threats",
            JValue.arr [JValue.obj [("domain", JValue.str "a.com")]])])) ∧
    pyLookup (parse_response
        (fun _ => some (JValue.obj [("threats",
          JValue.arr [JValue.obj [("domain", JValue.str "a.com")]])]))
        "x {j} y".data ["a.com", "b.com"]) "b.com"
      = some (noThreatVerdict "b.com") ∧
    pyLookup (parse_response
        (fun _ => some (JValue.obj [("threats",
          JValue.arr [JValue.obj [("domain", JValue.str "a.com")]])]))
        "x {j} y".data ["a.com", "b.com"]) "a.com"
      = some (threatVerdict "a.com" [("domain", JValue.str "a.com")] "medium") := by
  have hwf : ∀ item ∈ [JValue.obj [("domain", JValue.str "a.com")]],
      WfItem ["a.com", "b.com"] item := by
    intro item hitem
    rw [List.mem_singleton] at hitem
    subst hitem
    exact ⟨[("domain", JValue.str "a.com")], rfl, fun d _ _ => ⟨"medium", rfl⟩⟩
  have h3 := (C5_parse_response
      (fun _ => some (JValue.obj [("threats",
        JValue.arr [JValue.obj [("domain", JValue.str "a.com")]])]))
      "x {j} y".data ["a.com", "b.com"]).2.2
      "{j}".data [("threats",
        JValue.arr [JValue.obj [("domain", JValue.str "a.com")]])]
      [JValue.obj [("domain", JValue.str "a.com")]]
      (by decide) rfl rfl hwf
  refine ⟨⟨by decide, rfl⟩, ?_, ?_⟩
  · exact h3.2.1 "b.com" (by simp) (by decide)
  · exact h3.2.2 (by decide) [("domain", JValue.str "a.com")] "a.com" "medium"
      (by simp) rfl (by simp) rfl

/-! ## C8 -/

theorem rfind_ge_neg_one (c : Char) (p : List Char) : -1 ≤ rfind c p := by
  induction p with
  | nil => simp [rfind]
  | cons x xs ih =>
    simp only [rfind]
    split
    · omega
    · split <;> omega

theorem rfind_ge_of_getElem (c : Char) (p : List Char) (n : ℕ)
    (h : p[n]? = some c) : (n : ℤ) ≤ rfind c p := by
  induction p generalizing n with
  | nil => simp at h
  | cons x xs ih =>
    cases n with
    | zero =>
      simp only [List.getElem?_cons_zero, Option.some.injEq] at h
      simp only [rfind]
      have hge := rfind_ge_neg_one c xs
      by_cases h0 : 0 ≤ rfind c xs
      · rw [if_pos h0]
        omega
      · rw [if_neg h0, if_pos h]
        omega
    | succ n =>
      have h' : xs[n]? = some c := by simpa using h
      have hn := ih n h'
      simp only [rfind]
      by_cases h0 : 0 ≤ rfind c xs
      · rw [if_pos h0]
        push_cast
        omega
      · exfalso
        omega

theorem prefix_take_of_le {α : Type} {pre p : List α} {n : ℕ}
    (hpre : pre <+: p) (hn : pre.length ≤ n) : pre <+: p.take n := by
  obtain ⟨t, rfl⟩ := hpre
  rw [List.take_append_eq_append_take, List.take_of_length_le hn]
  exact List.prefix_append pre _

theorem strStarts_iff {pre s : String} :
    strStarts pre s = true ↔ pre.data <+: s.data := by
  simp [strStarts]

/-- `os.path.splitext` keeps a leading `data/` prefix: the cut point is
always strictly after the last `/`. -/
theorem splitextRoot_data_prefix (p : List Char)
    (hpre : "data/".data <+: p) : "data/".data <+: splitextRoot p := by
  have h4 : p[4]? = some '/' := by
    obtain ⟨t, rfl⟩ := hpre
    rw [List.getElem?_append, if_pos (by decide : (4:ℕ) < "data/".data.length)]
    decide
  have hsep : (4 : ℤ) ≤ rfind '/' p := rfind_ge_of_getElem '/' p 4 h4
  simp only [splitextRoot]
  split
  · split
    · rename_i hlt _
      apply prefix_take_of_le hpre
      have : (5 : ℤ) ≤ rfind '.' p := by omega
      have hlen : "data/".data.length = 5 := by decide
      omega
    · exact hpre
  · exact hpre

/-- C8, counterexample: an absolute caller-supplied output path escapes
the fixed `data/` directory entirely (`os.path.join("data", abs)` drops
the `"data"` component), refuting "rooted under the fixed data directory
regardless of the caller-supplied path prefix". -/
theorem C8_counterexample :
    (save_results sampleResult "/tmp/results.csv").json_path
        = "/tmp/results_complete.json" ∧
    strStarts "data/" ((save_results sampleResult "/tmp/results.csv").json_path)
        = false := by
  constructor
  · rfl
  · decide

/-- C8, amended: `save_results` writes `<base>_threats.csv` exactly when
the threats partition is non-empty and `<base>_filtered.csv` exactly when
the filtered partition is non-empty, each with exactly the fixed columns
and the partition's rows, and always writes `<base>_complete.json` with
the full result; all three share the computed base. The base stays under
`data/` when the supplied path already starts with `data/`, or when it
does not start with `data/` or `data\` and its cleaned form (after
stripping `.csv` and `.json`) is not absolute — an absolute cleaned path
escapes `data/` (see the counterexample). -/
theorem C8_save_results (results : BrandAnalysisResult) (output_path : String) :
    ((save_results results output_path).threats_csv.isSome
        ↔ results.threats ≠ []) ∧
    ((save_results results output_path).filtered_csv.isSome
        ↔ results.filtered ≠ []) ∧
    (∀ c, (save_results results output_path).threats_csv = some c →
      c.path = output_base_path output_path ++ "_threats.csv" ∧
      c.fieldnames = csvFieldnames ∧ c.rows = results.threats) ∧
    (∀ c, (save_results results output_path).filtered_csv = some c →
      c.path = output_base_path output_path ++ "_filtered.csv" ∧
      c.fieldnames = csvFieldnames ∧ c.rows = results.filtered) ∧
    (save_results results output_path).json_path
        = output_base_path output_path ++ "_complete.json" ∧
    (save_results results output_path).json_content = results ∧
    (strStarts "data/" output_path = true →
      strStarts "data/" (output_base_path output_path) = true) ∧
    (strStarts "data/" output_path = false →
      strStarts "data\\" output_path = false →
      strStarts "/"
        (⟨removeAll ".json".data (removeAll ".csv".data output_path.data)⟩ : String)
        = false →
      strStarts "data/" (output_base_path output_path) = true) := by
  refine ⟨?_, ?_, ?_, ?_, rfl, rfl, ?_, ?_⟩
  · by_cases h : results.threats.isEmpty
    · simp [save_results, h, List.isEmpty_iff.mp h]
    · simp only [save_results, if_neg h, Option.isSome_some, true_iff]
      exact fun hc => h (by simp [hc])
  · by_cases h : results.filtered.isEmpty
    · simp [save_results, h, List.isEmpty_iff.mp h]
    · simp only [save_results, if_neg h, Option.isSome_some, true_iff]
      exact fun hc => h (by simp [hc])
  · intro c hc
    by_cases h : results.threats.isEmpty
    · simp [save_results, h] at hc
    · simp only [save_results, if_neg h, Option.some.injEq] at hc
      subst hc
      exact ⟨rfl, rfl, rfl⟩
  · intro c hc
    by_cases h : results.filtered.isEmpty
    · simp [save_results, h] at hc
    · simp only [save_results, if_neg h, Option.some.injEq] at hc
      subst hc
      exact ⟨rfl, rfl, rfl⟩
  · intro hstart
    unfold output_base_path
    rw [if_pos (by rw [hstart]; rfl)]
    apply strStarts_iff.mpr
    exact splitextRoot_data_prefix output_path.data (strStarts_iff.mp hstart)
  · intro h1 h2 h3
    unfold output_base_path
    rw [if_neg (by rw [h1, h2]; simp)]
    unfold pyJoinData
    rw [if_neg (by rw [h3]; simp)]
    apply strStarts_iff.mpr
    rw [String.data_append]
    exact List.prefix_append _ _

/-- C8 witness: a plain relative filename lands under `data/`, with the
CSV path, columns and rows as described. -/
theorem C8_save_results_witness :
    (strStarts "data/" "out.csv" = false ∧ strStarts "data\\" "out.csv" = false ∧
      strStarts "/"
        (⟨removeAll ".json".data (removeAll ".csv".data "out.csv".data)⟩ : String)
        = false) ∧
    strStarts "data/" (output_base_path "out.csv") = true ∧
    ((save_results sampleResult "out.csv").threats_csv.isSome
        ↔ sampleResult.threats ≠ []) :=
  ⟨⟨by decide, by decide, by decide⟩,
   (C8_save_results sampleResult "out.csv").2.2.2.2.2.2.2
     (by decide) (by decide) (by decide),
   (C8_save_results sampleResult "out.csv").1⟩

/-! ## C9 -/

/-- C9: for a non-positive `batch_size` (e.g. `0`), the analyzer
substitutes the default `200` for batching (the batches are the
200-chunks), yet the `batch_size` recorded in the final metadata is the
original caller-supplied value on both orchestrator paths, because the
orchestrator passes the uncorrected value to the results processor. -/
theorem C9_batch_size_metadata (all_domains : List String) (bn : String)
    (hbn : bn ≠ "") (company industry description : Option String)
    (batch_size : ℤ) (hbs : batch_size ≤ 0)
    (decode : List Char → Option JValue) (oracle : ℕ → ℕ → AttemptOutcome)
    (jitter : ℕ → ℕ → ℚ) (ts : String) (domains : List String) :
    effective_batch_size batch_size = 200 ∧
    batch_size ≠ 200 ∧
    analyze_domains true decode domains batch_size oracle jitter
      = runBatches decode oracle jitter 0 (chunks 200 domains) [] ∧
    (∀ r, agent_analyze_domains true all_domains (some bn) company industry
        description batch_size decode oracle jitter ts = .ok r →
      r.metadata.batch_size = batch_size) := by
  have heff : effective_batch_size batch_size = 200 := by
    unfold effective_batch_size
    rw [if_pos hbs]
  refine ⟨heff, by omega, ?_, ?_⟩
  · unfold analyze_domains
    rw [heff]
    rfl
  · intro r hr
    simp only [agent_analyze_domains, get_brand_config, if_neg hbn,
      Bool.not_true] at hr
    rw [if_neg (by simp)] at hr
    split at hr
    · rw [Except.ok.injEq] at hr
      subst hr
      rfl
    · rw [Except.ok.injEq] at hr
      subst hr
      rfl

/-- C9 witness: `batch_size = 0` with one matching domain. -/
theorem C9_batch_size_metadata_witness :
    ((("tui" : String) ≠ "") ∧ ((0 : ℤ) ≤ 0)) ∧
    effective_batch_size 0 = 200 ∧
    (∀ r, agent_analyze_domains true ["tui.com"] (some "tui") none none
        none 0 (fun _ => none) (fun _ _ => .okEmpty) (fun _ _ => 0) "t" = .ok r →
      r.metadata.batch_size = 0) :=
  ⟨⟨by decide, le_refl 0⟩,
   (C9_batch_size_metadata ["tui.com"] "tui" (by decide) none none none 0
      (le_refl 0) (fun _ => none) (fun _ _ => .okEmpty) (fun _ _ => 0) "t" []).1,
   (C9_batch_size_metadata ["tui.com"] "tui" (by decide) none none none 0
      (le_refl 0) (fun _ => none) (fun _ _ => .okEmpty) (fun _ _ => 0) "t" []).2.2.2⟩

/-! ## C10 -/

/-- C10: the keyword recorded by `process_results` is the lower-casing of
the brand config's name, i.e. of the upper-cased company name, while the
orchestrator filters with the raw `brand_name`; whenever the supplied
company name differs case-insensitively from the brand name the recorded
keyword differs from the keyword actually used for filtering. -/
theorem C10_recorded_keyword (all_domains : List String) (b c : String)
    (hb : b ≠ "") (hc : c ≠ "") (industry description : Option String)
    (batch_size : ℤ) (decode : List Char → Option JValue)
    (oracle : ℕ → ℕ → AttemptOutcome) (jitter : ℕ → ℕ → ℚ) (ts : String)
    (hdiff : pyLower c ≠ pyLower b)
    (hrel : filter_full_word_matches all_domains b ≠ []) :
    ∃ r, agent_analyze_domains true all_domains (some b) (some c) industry
        description batch_size decode oracle jitter ts = .ok r ∧
      (create_dynamic_brand_config b (some c) industry description).name
        = pyUpper c ∧
      r.metadata.keyword = pyLower (pyUpper c) ∧
      r.metadata.total_domains = (filter_full_word_matches all_domains b).length ∧
      r.metadata.keyword ≠ b := by
  have hname : (create_dynamic_brand_config b (some c) industry description).name
      = pyUpper c := by
    simp [create_dynamic_brand_config, pyOr, hc]
  have hkw : pyOr (some b)
      (pyLower (create_dynamic_brand_config b (some c) industry description).name)
      = b := by
    simp [pyOr, hb]
  have hne : pyLower (pyUpper c) ≠ b := by
    intro hcontr
    apply hdiff
    have h1 : pyLower (pyUpper c) = pyLower c := pyLower_pyUpper c
    rw [h1] at hcontr
    rw [← hcontr, pyLower_pyLower]
  refine ⟨process_results (filter_full_word_matches all_domains b)
      (analyze_domains true decode (filter_full_word_matches all_domains b)
        batch_size oracle jitter)
      (create_dynamic_brand_config b (some c) industry description)
      batch_size ts, ?_, hname, ?_, ?_, ?_⟩
  · simp only [agent_analyze_domains, get_brand_config, if_neg hb,
      Bool.not_true, hkw]
    rw [if_neg (by simp)]
    rw [if_neg (by simpa using hrel)]
  · show pyLower (create_dynamic_brand_config b (some c) industry description).name
        = pyLower (pyUpper c)
    rw [hname]
  · rfl
  · show pyLower (create_dynamic_brand_config b (some c) industry description).name ≠ b
    rw [hname]
    exact hne

/-- C10 witness: brand `"tui"`, company `"TUI AG"`: the run records
keyword `"tui ag"` while the filter used `"tui"`. -/
theorem C10_recorded_keyword_witness :
    (("tui" : String) ≠ "" ∧ ("TUI AG" : String) ≠ "" ∧
      pyLower "TUI AG" ≠ pyLower "tui" ∧
      filter_full_word_matches ["tui.com"] "tui" ≠ []) ∧
    (∃ r, agent_analyze_domains true ["tui.com"] (some "tui") (some "TUI AG")
        none none 200 (fun _ => none) (fun _ _ => .okEmpty) (fun _ _ => 0) "t"
        = .ok r ∧
      (create_dynamic_brand_config "tui" (some "TUI AG") none none).name
        = pyUpper "TUI AG" ∧
      r.metadata.keyword = pyLower (pyUpper "TUI AG") ∧
      r.metadata.total_domains
        = (filter_full_word_matches ["tui.com"] "tui").length ∧
      r.metadata.keyword ≠ "tui") :=
  ⟨⟨by decide, by decide, by decide, by decide⟩,
   C10_recorded_keyword ["tui.com"] "tui" "TUI AG" (by decide) (by decide)
     none none 200 (fun _ => none) (fun _ _ => .okEmpty) (fun _ _ => 0) "t"
     (by decide) (by decide)⟩
